import Mathlib

/-!
# mesh-ai-node: shallow embedding and verification

This file embeds the logic of the `mesh-ai-node` repository (a libp2p-based
peer-to-peer prompt/response node) in Lean 4 and proves properties of it.

The repository has three Rust source files:
* `src/lib.rs` — the payload types `PromptRequest` / `PromptResponse`;
* `src/main.rs` — the server role: builds a swarm, optionally dials a relay
  and listens via its circuit (otherwise listens directly on an ephemeral
  TCP address), and answers incoming `PromptRequest`s by calling the Ollama
  HTTP backend (`call_ollama`) and sending back one `PromptResponse`;
* `src/examples/ping.rs` — the client role: parses a target multiaddress,
  extracts the target peer id, dials, sends exactly one `PromptRequest`
  after connecting to the target, and exits on the first response or on an
  outgoing-connection error.

The event loops are embedded as pure step functions over explicit event
types; the multiaddress grammar, whose parser lives in the external
`multiaddr` crate, is modelled from the spec's grammar.
-/

namespace MeshAI

/-- A peer identifier, modelled opaquely as its textual form. -/
abbrev PeerId := String

/-- One typed component of a multiaddress, covering the grammar the spec
defines: a network-layer address (`/ip4/a.b.c.d`), a transport
(`/tcp/port`), a peer-identifier component (`/p2p/<id>`), and the
via-relay marker (`/p2p-circuit`). -/
inductive Component where
  | ip4 (a b c d : Nat)
  | tcp (port : Nat)
  | p2p (peerId : PeerId)
  | p2pCircuit
deriving DecidableEq, Repr

/-- A multiaddress is an ordered sequence of typed components. -/
abbrev Multiaddr := List Component

/-- `relay_addr.iter().find_map(...)` from `src/main.rs`: the first `/p2p`
component of an address. -/
def firstP2p (addr : Multiaddr) : Option PeerId :=
  addr.findSome? fun c => match c with | .p2p i => some i | _ => none

/-- `target_addr.iter().filter_map(...).last()` from `src/examples/ping.rs`:
the last `/p2p` component of an address. -/
def lastP2p (addr : Multiaddr) : Option PeerId :=
  (addr.filterMap fun c => match c with | .p2p i => some i | _ => none).getLast?

/-- `relay_addr.clone().with(Protocol::P2pCircuit)` from `src/main.rs`:
append the circuit marker to an address. -/
def withCircuit (addr : Multiaddr) : Multiaddr := addr ++ [.p2pCircuit]

/-! ## Textual form of multiaddresses

Modelled from the spec: the string parser/serializer for the address grammar
lives in the external `multiaddr` crate, not in this repository's sources;
the spec fixes the grammar (`<transport-address>/p2p/<PeerIdentifier>` with
an optional circuit marker) and requires parsing to reject malformed
sequences.  Components are serialized as `/`-separated tokens; IPv4
addresses as dotted decimal quads; numbers in decimal. -/

/-- The decimal digit character for `d < 10` (code point 48 is `0`). -/
def digitChar (d : Nat) : Char :=
  Char.ofNat (48 + d)

/-- The value of a decimal digit character, `none` on a non-digit. -/
def charDigit? (c : Char) : Option Nat :=
  if 48 ≤ c.toNat ∧ c.toNat ≤ 57 then some (c.toNat - 48) else none

/-- Decimal digits of `n`, most significant first, via explicit fuel
(`n` itself is always enough fuel); empty for `n = 0`. -/
def natToCharsCore : Nat → Nat → List Char
  | 0, _ => []
  | fuel + 1, n =>
    if n = 0 then [] else natToCharsCore fuel (n / 10) ++ [digitChar (n % 10)]

/-- Decimal representation of a natural number. -/
def natToChars (n : Nat) : List Char :=
  if n = 0 then ['0'] else natToCharsCore n n

/-- Parse a nonempty all-digit character list as a decimal number. -/
def charsToNat? (cs : List Char) : Option Nat :=
  if cs.isEmpty then none
  else if cs.all fun c => (charDigit? c).isSome then
    some (cs.foldl (fun a c => 10 * a + (charDigit? c).getD 0) 0)
  else none

/-- Join chunks with a separator character (no trailing separator). -/
def joinSep (sep : Char) : List (List Char) → List Char
  | [] => []
  | [x] => x
  | x :: y :: xs => x ++ sep :: joinSep sep (y :: xs)

/-- Split a character list at every occurrence of `sep`; always returns at
least one (possibly empty) chunk. -/
def splitSep (sep : Char) : List Char → List (List Char)
  | [] => [[]]
  | c :: cs =>
    match splitSep sep cs with
    | [] => [[]]
    | r :: rs => if c = sep then [] :: r :: rs else (c :: r) :: rs

/-- The `/`-separated tokens a component serializes to. -/
def componentTokens : Component → List (List Char)
  | .ip4 a b c d =>
      ["ip4".data, joinSep '.' [natToChars a, natToChars b, natToChars c, natToChars d]]
  | .tcp port => ["tcp".data, natToChars port]
  | .p2p peerId => ["p2p".data, peerId.data]
  | .p2pCircuit => ["p2p-circuit".data]

/-- All tokens of an address, in order. -/
def serializeTokens (addr : Multiaddr) : List (List Char) :=
  addr.flatMap componentTokens

/-- Serialize an address to its textual form (a leading `/` before every
component keyword). -/
def serialize (addr : Multiaddr) : String :=
  ⟨joinSep '/' ([] :: serializeTokens addr)⟩

/-- Parse a `/`-separated token list into components; rejects unknown
keywords, missing arguments and malformed numbers. -/
def parseTokens : List (List Char) → Option Multiaddr
  | [] => some []
  | t :: rest =>
    if t = "p2p-circuit".data then
      (parseTokens rest).map (.p2pCircuit :: ·)
    else
      match rest with
      | [] => none
      | q :: rest2 =>
        if t = "ip4".data then
          match splitSep '.' q with
          | [w, x, y, z] =>
            match charsToNat? w, charsToNat? x, charsToNat? y, charsToNat? z with
            | some a, some b, some c, some d =>
              (parseTokens rest2).map (.ip4 a b c d :: ·)
            | _, _, _, _ => none
          | _ => none
        else if t = "tcp".data then
          match charsToNat? q with
          | some p => (parseTokens rest2).map (.tcp p :: ·)
          | none => none
        else if t = "p2p".data then
          (parseTokens rest2).map (.p2p ⟨q⟩ :: ·)
        else none

/-- Parse the textual form of a multiaddress; the string must start with
`/` (its first token must be empty). -/
def parse (s : String) : Option Multiaddr :=
  match splitSep '/' s.data with
  | [] => none
  | t :: toks => if t = [] then parseTokens toks else none

/-- Validity of one component for the round-trip: IPv4 octets below 256,
ports below 65536, peer identifiers free of the `/` separator. -/
def Component.valid : Component → Bool
  | .ip4 a b c d => decide (a < 256) && decide (b < 256) && decide (c < 256) && decide (d < 256)
  | .tcp port => decide (port < 65536)
  | .p2p peerId => !peerId.data.contains '/'
  | .p2pCircuit => true

/-- A valid multiaddress of the defined grammar. -/
def validAddr (addr : Multiaddr) : Bool := addr.all Component.valid

/-! ## The Ollama backend call (`call_ollama` in `src/main.rs`)

`call_ollama` issues an HTTP POST and inspects the result.  The network
interaction is embedded as an explicit `HttpOutcome` value describing what
the HTTP client produced; the logic downstream of it is translated
directly from the source. -/

/-- A JSON value, as produced by `serde_json`. -/
inductive Json where
  | null
  | bool (b : Bool)
  | num (n : Int)
  | str (s : String)
  | arr (elems : List Json)
  | obj (fields : List (String × Json))
deriving Repr

/-- `serde_json` indexing `body[key]`: the value at `key` in an object,
`Null` when the key is absent or the value is not an object. -/
def Json.index (j : Json) (key : String) : Json :=
  match j with
  | .obj fields =>
    match fields.lookup key with
    | some v => v
    | none => .null
  | _ => .null

/-- `Value::as_str`: `Some` exactly on JSON strings. -/
def Json.asStr : Json → Option String
  | .str s => some s
  | _ => none

/-- What the HTTP client produced for the POST to the Ollama endpoint:
either the send itself failed, or a response arrived with a status code,
its canonical reason text, and the result of decoding the body as JSON. -/
inductive HttpOutcome where
  | sendFailure (msg : String)
  | response (status : Nat) (reason : String) (body : Except String Json)

/-- The `Display` form of an HTTP status, e.g. `500 Internal Server Error`. -/
def statusDisplay (status : Nat) (reason : String) : String :=
  ⟨natToChars status⟩ ++ " " ++ reason

/-- `call_ollama` from `src/main.rs`, downstream of the HTTP POST: a send
failure propagates as the error; a non-2xx status becomes the error
`Ollama returned error: <status>`; otherwise the body is decoded as JSON
and the `response` field is extracted, defaulting to `No response` when it
is absent or not a string. -/
def call_ollama (out : HttpOutcome) : Except String String :=
  match out with
  | .sendFailure msg => .error msg
  | .response status reason body =>
    if ¬ (200 ≤ status ∧ status ≤ 299) then
      .error ("Ollama returned error: " ++ statusDisplay status reason)
    else
      match body with
      | .error msg => .error msg
      | .ok j => .ok (((j.index "response").asStr).getD "No response")

/-! ## Payload types (`src/lib.rs`) -/

/-- `PromptRequest` from `src/lib.rs`. -/
structure PromptRequest where
  prompt : String
deriving DecidableEq, Repr

/-- `PromptResponse` from `src/lib.rs`. -/
structure PromptResponse where
  response : String
deriving DecidableEq, Repr

/-! ## The event loops

Both binaries run `loop { match swarm.select_next_some().await { ... } }`.
Each iteration is embedded as a pure step function taking the loop's
mutable state and one swarm event, returning the new state, the network
actions issued during the iteration, and whether the arm exits the loop. -/

/-- A network action issued by a loop iteration (or by startup code):
`swarm.dial`, `swarm.listen_on`, `request_response.send_request`,
`request_response.send_response`. -/
inductive Action where
  | dial (addr : Multiaddr)
  | listenOn (addr : Multiaddr)
  | sendRequest (peer : PeerId) (request : PromptRequest)
  | sendResponse (channel : Nat) (response : PromptResponse)
deriving DecidableEq, Repr

/-- Whether a match arm leaves the loop: `cont` for falling through to the
next iteration, `exitOk` for `return Ok(())`, `exitErr` for
`return Err(..)`. -/
inductive LoopExit where
  | cont
  | exitOk
  | exitErr (msg : String)
deriving DecidableEq, Repr

/-- The swarm events distinguished by the server's match in `src/main.rs`.
`connectionEstablished` carries, besides the remote peer, the
environment's answer (`listenOk`) should the arm attempt
`swarm.listen_on`.  A `Message::Response` at the server and all remaining
events fall through to the wildcard arm and are kept as distinct
constructors to show they are not treated specially. -/
inductive ServerEvent where
  | connectionEstablished (peer : PeerId) (listenOk : Bool)
  | newListenAddr (addr : Multiaddr)
  | requestMessage (peer : PeerId) (request : PromptRequest) (channel : Nat)
  | responseMessage (peer : PeerId) (response : PromptResponse)
  | pingEvent
  | relayEvent
  | otherEvent
deriving DecidableEq, Repr

/-- The server loop's mutable state: the `listening_on_relay` flag. -/
structure ServerState where
  listening_on_relay : Bool
deriving DecidableEq, Repr

/-- Startup of `src/main.rs` before the loop: with a configured relay
address the node dials it; otherwise it listens on the ephemeral local
address `/ip4/0.0.0.0/tcp/0`. -/
def serverStartup (relayAddrOpt : Option Multiaddr) : List Action :=
  match relayAddrOpt with
  | some relayAddr => [.dial relayAddr]
  | none => [.listenOn [.ip4 0 0 0 0, .tcp 0]]

/-- One iteration of the server loop in `src/main.rs`.  `backend` gives
the result of `call_ollama(prompt)` for the iteration's await point. -/
def serverStep (relayAddrOpt : Option Multiaddr) (backend : String → Except String String)
    (s : ServerState) (ev : ServerEvent) : ServerState × List Action × LoopExit :=
  match ev with
  | .connectionEstablished peer listenOk =>
    match relayAddrOpt with
    | some relayAddr =>
      if s.listening_on_relay then (s, [], .cont)
      else if firstP2p relayAddr = some peer then
        if listenOk then ({ listening_on_relay := true }, [.listenOn (withCircuit relayAddr)], .cont)
        else (s, [.listenOn (withCircuit relayAddr)], .cont)
      else (s, [], .cont)
    | none => (s, [], .cont)
  | .requestMessage _ request channel =>
    let response_text :=
      match backend request.prompt with
      | .ok t => t
      | .error e => "Error calling Ollama: " ++ e
    (s, [.sendResponse channel ⟨response_text⟩], .cont)
  | _ => (s, [], .cont)

/-- Run the server loop over a finite prefix of its event stream,
collecting actions in order; the outcome is `none` while the loop is
still running after the prefix, `some` if some arm exited. -/
def serverRun (relayAddrOpt : Option Multiaddr) (backend : String → Except String String) :
    ServerState → List ServerEvent → ServerState × List Action × Option (Except String Unit)
  | s, [] => (s, [], none)
  | s, ev :: evs =>
    match serverStep relayAddrOpt backend s ev with
    | (s', acts, .cont) =>
      let rest := serverRun relayAddrOpt backend s' evs
      (rest.1, acts ++ rest.2.1, rest.2.2)
    | (s', acts, .exitOk) => (s', acts, some (.ok ()))
    | (s', acts, .exitErr msg) => (s', acts, some (.error msg))

/-- The swarm events distinguished by the client's match in
`src/examples/ping.rs`.  An inbound request and all remaining events fall
through to the wildcard arm. -/
inductive ClientEvent where
  | connectionEstablished (peer : PeerId)
  | responseMessage (peer : PeerId) (response : PromptResponse)
  | pingEvent
  | outgoingConnectionError (msg : String)
  | otherEvent
deriving DecidableEq, Repr

/-- Startup of `src/examples/ping.rs` before the loop: parse the target
multiaddress from the command line (`?` propagates a parse failure),
extract the last `/p2p` component as the target peer id (missing
component is the error `No peer ID in target address`), then dial the
target.  The returned action list holds the network actions performed;
on error it is empty because both failures happen before the dial. -/
def clientInit (arg : String) : List Action × Except String (Multiaddr × PeerId) :=
  match parse arg with
  | none => ([], .error "invalid multiaddr")
  | some addr =>
    match lastP2p addr with
    | none => ([], .error "No peer ID in target address")
    | some pid => ([.dial addr], .ok (addr, pid))

/-- One iteration of the client loop in `src/examples/ping.rs`; the `Bool`
state is the `prompt_sent` flag. -/
def clientStep (targetPeerId : PeerId) (prompt_sent : Bool) (ev : ClientEvent) :
    Bool × List Action × LoopExit :=
  match ev with
  | .connectionEstablished peer =>
    if peer = targetPeerId ∧ prompt_sent = false then
      (true, [.sendRequest peer ⟨"whats 1 + 1"⟩], .cont)
    else (prompt_sent, [], .cont)
  | .responseMessage _ _ => (prompt_sent, [], .exitOk)
  | .pingEvent => (prompt_sent, [], .cont)
  | .outgoingConnectionError msg => (prompt_sent, [], .exitErr msg)
  | .otherEvent => (prompt_sent, [], .cont)

/-- Run the client loop over a finite prefix of its event stream, stopping
at the first arm that exits; `none` means the loop is still running. -/
def clientRun (targetPeerId : PeerId) :
    Bool → List ClientEvent → Bool × List Action × Option (Except String Unit)
  | prompt_sent, [] => (prompt_sent, [], none)
  | prompt_sent, ev :: evs =>
    match clientStep targetPeerId prompt_sent ev with
    | (sent', acts, .cont) =>
      let rest := clientRun targetPeerId sent' evs
      (rest.1, acts ++ rest.2.1, rest.2.2)
    | (sent', acts, .exitOk) => (sent', acts, some (.ok ()))
    | (sent', acts, .exitErr msg) => (sent', acts, some (.error msg))

/-! ## Observers on actions and events -/

/-- The response channel of a `sendResponse` action. -/
def Action.sendResponseChannel? : Action → Option Nat
  | .sendResponse channel _ => some channel
  | _ => none

/-- The response channel handed out by a request event. -/
def ServerEvent.requestChannel? : ServerEvent → Option Nat
  | .requestMessage _ _ channel => some channel
  | _ => none

/-- Whether an action is a `send_request`. -/
def Action.isSendRequest : Action → Bool
  | .sendRequest _ _ => true
  | _ => false

/-- Whether an action is a `listen_on`. -/
def Action.isListenOn : Action → Bool
  | .listenOn _ => true
  | _ => false

/-- Whether an action is a dial or a listen (network setup). -/
def Action.isDialOrListen : Action → Bool
  | .dial _ => true
  | .listenOn _ => true
  | _ => false

/-- A `send_request` action is well-formed for the client: addressed to
the target peer and carrying the fixed prompt. -/
def sendRequestOk (target : PeerId) : Action → Bool
  | .sendRequest peer request =>
    decide (peer = target) && decide (request = ⟨"whats 1 + 1"⟩)
  | _ => true

/-- Discipline of the server's actions in relay mode during one iteration
on event `ev`: no dial, no request send, and any listen is exactly the
circuit listen on the relay address, issued while handling a connection
to the peer named by the relay address's first `/p2p` component. -/
def relayActionOk (relayAddr : Multiaddr) (ev : ServerEvent) : Action → Bool
  | .listenOn a =>
    decide (a = withCircuit relayAddr) &&
      (match ev with
       | .connectionEstablished peer _ => decide (firstP2p relayAddr = some peer)
       | _ => false)
  | .dial _ => false
  | .sendRequest _ _ => false
  | .sendResponse _ _ => true

/-- Whether the environment would let a listen attempted while handling
this event succeed (vacuously true on events that never listen). -/
def ServerEvent.listenOkTrue : ServerEvent → Bool
  | .connectionEstablished _ listenOk => listenOk
  | _ => true

/-! ## Lemmas: splitting and joining separated tokens -/

theorem splitSep_ne_nil (sep : Char) (l : List Char) : splitSep sep l ≠ [] := by
  induction l with
  | nil => simp [splitSep]
  | cons c cs ih =>
    cases h : splitSep sep cs with
    | nil => exact absurd h ih
    | cons r rs =>
      simp only [splitSep, h]
      split <;> simp

theorem splitSep_of_not_mem {sep : Char} {l : List Char} (h : sep ∉ l) :
    splitSep sep l = [l] := by
  induction l with
  | nil => rfl
  | cons c cs ih =>
    have hc : ¬ c = sep := fun hcs => h (hcs ▸ List.mem_cons_self c cs)
    have hcs : sep ∉ cs := fun m => h (List.mem_cons_of_mem _ m)
    simp [splitSep, ih hcs, hc]

theorem splitSep_append {sep : Char} {x rest : List Char} (h : sep ∉ x) :
    splitSep sep (x ++ sep :: rest) = x :: splitSep sep rest := by
  induction x with
  | nil =>
    cases h' : splitSep sep rest with
    | nil => exact absurd h' (splitSep_ne_nil sep rest)
    | cons r rs => simp [splitSep, h']
  | cons c cs ih =>
    have hc : ¬ c = sep := fun hcs => h (hcs ▸ List.mem_cons_self c cs)
    have hcs : sep ∉ cs := fun m => h (List.mem_cons_of_mem _ m)
    have ihcs := ih hcs
    cases h' : splitSep sep (cs ++ sep :: rest) with
    | nil => exact absurd h' (splitSep_ne_nil _ _)
    | cons r rs =>
      rw [h'] at ihcs
      simp only [List.cons_append, splitSep, List.append_eq, h', hc, if_false]
      rw [List.cons.injEq] at ihcs ⊢
      exact ⟨by rw [ihcs.1], ihcs.2⟩

theorem splitSep_joinSep {sep : Char} :
    ∀ xss : List (List Char), xss ≠ [] → (∀ x ∈ xss, sep ∉ x) →
      splitSep sep (joinSep sep xss) = xss := by
  intro xss
  induction xss with
  | nil => intro h; exact absurd rfl h
  | cons x xs ih =>
    intro _ hfree
    cases xs with
    | nil => exact splitSep_of_not_mem (hfree x (List.mem_cons_self x []))
    | cons y ys =>
      have hx : sep ∉ x := hfree x (List.mem_cons_self x _)
      have hrest : ∀ z ∈ y :: ys, sep ∉ z := fun z hz => hfree z (List.mem_cons_of_mem _ hz)
      simp only [joinSep]
      rw [splitSep_append hx, ih (by simp) hrest]

theorem mem_joinSep {sep c : Char} :
    ∀ xss : List (List Char), c ∈ joinSep sep xss → c = sep ∨ ∃ x ∈ xss, c ∈ x := by
  intro xss
  induction xss with
  | nil => intro h; simp [joinSep] at h
  | cons x xs ih =>
    intro h
    cases xs with
    | nil => exact Or.inr ⟨x, List.mem_cons_self x [], h⟩
    | cons y ys =>
      simp only [joinSep, List.mem_append, List.mem_cons] at h
      rcases h with hx | rfl | hrest
      · exact Or.inr ⟨x, List.mem_cons_self x _, hx⟩
      · exact Or.inl rfl
      · rcases ih hrest with hsep | ⟨z, hz, hcz⟩
        · exact Or.inl hsep
        · exact Or.inr ⟨z, List.mem_cons_of_mem _ hz, hcz⟩

/-! ## Lemmas: decimal serialization of numbers -/

theorem charDigit?_digitChar {d : Nat} (h : d < 10) :
    charDigit? (digitChar d) = some d := by
  interval_cases d <;> decide

theorem isSome_charDigit?_of_mem_core :
    ∀ fuel n, ∀ c ∈ natToCharsCore fuel n, (charDigit? c).isSome = true := by
  intro fuel
  induction fuel with
  | zero => intro n c hc; simp [natToCharsCore] at hc
  | succ fuel ih =>
    intro n c hc
    by_cases hn : n = 0
    · simp [natToCharsCore, hn] at hc
    · simp only [natToCharsCore, hn, if_false, List.mem_append, List.mem_singleton] at hc
      rcases hc with hc | rfl
      · exact ih (n / 10) c hc
      · rw [charDigit?_digitChar (Nat.mod_lt n (by norm_num))]; rfl

theorem isSome_charDigit?_of_mem_natToChars {n : Nat} {c : Char}
    (hc : c ∈ natToChars n) : (charDigit? c).isSome = true := by
  by_cases hn : n = 0
  · simp [natToChars, hn] at hc; subst hc; rfl
  · rw [natToChars, if_neg hn] at hc
    exact isSome_charDigit?_of_mem_core n n c hc

theorem slash_not_mem_natToChars (n : Nat) : '/' ∉ natToChars n := by
  intro hmem
  exact absurd (isSome_charDigit?_of_mem_natToChars hmem) (by decide)

theorem dot_not_mem_natToChars (n : Nat) : '.' ∉ natToChars n := by
  intro hmem
  exact absurd (isSome_charDigit?_of_mem_natToChars hmem) (by decide)

theorem natToChars_ne_nil (n : Nat) : natToChars n ≠ [] := by
  by_cases hn : n = 0
  · simp [natToChars, hn]
  · rw [natToChars, if_neg hn]
    cases fuel : n with
    | zero => exact absurd fuel hn
    | succ m =>
      rw [← fuel]
      conv_lhs => rw [fuel]
      simp [natToCharsCore, hn]

theorem foldl_natToCharsCore :
    ∀ fuel n a, n ≤ fuel →
      (natToCharsCore fuel n).foldl (fun x c => 10 * x + (charDigit? c).getD 0) a
        = a * 10 ^ (natToCharsCore fuel n).length + n := by
  intro fuel
  induction fuel with
  | zero =>
    intro n a h
    interval_cases n
    simp [natToCharsCore]
  | succ fuel ih =>
    intro n a h
    by_cases hn : n = 0
    · simp [natToCharsCore, hn]
    · have hpos : 0 < n := Nat.pos_of_ne_zero hn
      have hdiv : n / 10 ≤ fuel := by
        have := Nat.div_lt_self hpos (by norm_num : 1 < 10)
        omega
      simp only [natToCharsCore, hn, if_false]
      rw [List.foldl_append, ih (n / 10) a hdiv]
      simp only [List.foldl_cons, List.foldl_nil, List.length_append, List.length_singleton,
        charDigit?_digitChar (Nat.mod_lt n (by norm_num : 0 < 10)), Option.getD_some]
      rw [pow_succ, ← mul_assoc]
      generalize a * 10 ^ (natToCharsCore fuel (n / 10)).length = K
      omega

theorem charsToNat?_natToChars (n : Nat) : charsToNat? (natToChars n) = some n := by
  by_cases hn : n = 0
  · subst hn; decide
  · have hne : natToChars n ≠ [] := natToChars_ne_nil n
    have hall : (natToChars n).all (fun c => (charDigit? c).isSome) = true := by
      rw [List.all_eq_true]
      intro c hc
      exact isSome_charDigit?_of_mem_natToChars hc
    rw [charsToNat?, if_neg (by simpa using hne), if_pos hall]
    rw [natToChars, if_neg hn] at hall ⊢
    rw [foldl_natToCharsCore n n 0 le_rfl]
    simp

/-! ## Lemmas: the multiaddress round-trip -/

theorem splitSep_quad (a b c d : Nat) :
    splitSep '.' (joinSep '.' [natToChars a, natToChars b, natToChars c, natToChars d])
      = [natToChars a, natToChars b, natToChars c, natToChars d] := by
  apply splitSep_joinSep _ (by simp)
  intro x hx
  simp only [List.mem_cons, List.not_mem_nil, or_false] at hx
  rcases hx with rfl | rfl | rfl | rfl <;> exact dot_not_mem_natToChars _

theorem slash_not_mem_componentTokens {comp : Component} (h : comp.valid = true) :
    ∀ tok ∈ componentTokens comp, '/' ∉ tok := by
  intro tok htok hslash
  cases comp with
  | ip4 a b c d =>
    simp only [componentTokens, List.mem_cons, List.not_mem_nil, or_false] at htok
    rcases htok with rfl | rfl
    · exact absurd hslash (by decide)
    · rcases mem_joinSep _ hslash with hdot | ⟨x, hx, hcx⟩
      · exact absurd hdot (by decide)
      · simp only [List.mem_cons, List.not_mem_nil, or_false] at hx
        rcases hx with rfl | rfl | rfl | rfl <;> exact slash_not_mem_natToChars _ hcx
  | tcp p =>
    simp only [componentTokens, List.mem_cons, List.not_mem_nil, or_false] at htok
    rcases htok with rfl | rfl
    · exact absurd hslash (by decide)
    · exact slash_not_mem_natToChars _ hslash
  | p2p pid =>
    simp only [componentTokens, List.mem_cons, List.not_mem_nil, or_false] at htok
    rcases htok with rfl | rfl
    · exact absurd hslash (by decide)
    · simp only [Component.valid, Bool.not_eq_true'] at h
      have he := List.elem_eq_true_of_mem hslash
      rw [List.contains, he] at h
      exact absurd h (by decide)
  | p2pCircuit =>
    simp only [componentTokens, List.mem_cons, List.not_mem_nil, or_false] at htok
    rcases htok with rfl
    exact absurd hslash (by decide)

theorem parseTokens_cons {comp : Component} (h : comp.valid = true) (ts : List (List Char)) :
    parseTokens (componentTokens comp ++ ts) = (parseTokens ts).map (comp :: ·) := by
  cases comp with
  | ip4 a b c d => simp [componentTokens, parseTokens, splitSep_quad, charsToNat?_natToChars]
  | tcp p => simp [componentTokens, parseTokens, charsToNat?_natToChars]
  | p2p pid => simp [componentTokens, parseTokens]
  | p2pCircuit =>
    cases ts with
    | nil => simp [componentTokens, parseTokens]
    | cons q rest => simp [componentTokens, parseTokens]

theorem slash_not_mem_serializeTokens {addr : Multiaddr} (h : validAddr addr = true) :
    ∀ tok ∈ serializeTokens addr, '/' ∉ tok := by
  intro tok htok
  rw [serializeTokens, List.mem_flatMap] at htok
  obtain ⟨comp, hcomp, htok⟩ := htok
  have hv : comp.valid = true := by
    rw [validAddr, List.all_eq_true] at h
    exact h comp hcomp
  exact slash_not_mem_componentTokens hv tok htok

theorem parseTokens_serializeTokens {addr : Multiaddr} (h : validAddr addr = true) :
    parseTokens (serializeTokens addr) = some addr := by
  induction addr with
  | nil => rfl
  | cons comp rest ih =>
    rw [validAddr, List.all_cons, Bool.and_eq_true] at h
    rw [serializeTokens, List.flatMap_cons, parseTokens_cons h.1]
    rw [show rest.flatMap componentTokens = serializeTokens rest from rfl]
    rw [ih h.2]
    rfl

/-! ## Lemmas: the server loop -/

theorem serverStep_exit (relayAddrOpt : Option Multiaddr) (backend : String → Except String String)
    (s : ServerState) (ev : ServerEvent) :
    (serverStep relayAddrOpt backend s ev).2.2 = .cont := by
  cases ev <;> cases relayAddrOpt <;> simp [serverStep] <;> split_ifs <;> rfl

theorem serverStep_responses (relayAddrOpt : Option Multiaddr)
    (backend : String → Except String String) (s : ServerState) (ev : ServerEvent) :
    ((serverStep relayAddrOpt backend s ev).2.1).filterMap Action.sendResponseChannel?
      = (ServerEvent.requestChannel? ev).toList := by
  cases ev <;> cases relayAddrOpt <;>
    simp [serverStep, ServerEvent.requestChannel?, Action.sendResponseChannel?] <;>
    split_ifs <;> simp [Action.sendResponseChannel?]

theorem serverRun_cons (relayAddrOpt : Option Multiaddr)
    (backend : String → Except String String) (s : ServerState) (ev : ServerEvent)
    (evs : List ServerEvent) :
    serverRun relayAddrOpt backend s (ev :: evs)
      = ((serverRun relayAddrOpt backend (serverStep relayAddrOpt backend s ev).1 evs).1,
         (serverStep relayAddrOpt backend s ev).2.1
           ++ (serverRun relayAddrOpt backend (serverStep relayAddrOpt backend s ev).1 evs).2.1,
         (serverRun relayAddrOpt backend (serverStep relayAddrOpt backend s ev).1 evs).2.2) := by
  have hexit := serverStep_exit relayAddrOpt backend s ev
  rcases hstep : serverStep relayAddrOpt backend s ev with ⟨s', acts, ex⟩
  rw [hstep] at hexit
  simp only at hexit
  subst hexit
  simp [serverRun, hstep]

theorem serverRun_flag_no_listen (relayAddr : Multiaddr)
    (backend : String → Except String String) :
    ∀ (evs : List ServerEvent) (s : ServerState), s.listening_on_relay = true →
      ((serverRun (some relayAddr) backend s evs).2.1.countP Action.isListenOn) = 0 := by
  intro evs
  induction evs with
  | nil => intro s _; simp [serverRun]
  | cons ev evs ih =>
    intro s hflag
    rw [serverRun_cons, List.countP_append]
    have hstate : (serverStep (some relayAddr) backend s ev).1 = s := by
      cases ev <;> simp [serverStep, hflag]
    have hacts : ((serverStep (some relayAddr) backend s ev).2.1.countP Action.isListenOn) = 0 := by
      cases ev <;> simp [serverStep, hflag, Action.isListenOn]
    rw [hacts, hstate, ih s hflag]

theorem serverRun_listen_count (relayAddr : Multiaddr)
    (backend : String → Except String String) :
    ∀ (evs : List ServerEvent) (s : ServerState), s.listening_on_relay = false →
      evs.all ServerEvent.listenOkTrue = true →
      ((serverRun (some relayAddr) backend s evs).2.1.countP Action.isListenOn) ≤ 1 := by
  intro evs
  induction evs with
  | nil => intro s _ _; simp [serverRun]
  | cons ev evs ih =>
    intro s hflag hok
    rw [List.all_cons, Bool.and_eq_true] at hok
    rw [serverRun_cons, List.countP_append]
    cases ev with
    | connectionEstablished peer listenOk =>
      have hlok : listenOk = true := hok.1
      subst hlok
      by_cases hmatch : firstP2p relayAddr = some peer
      · have hstep : serverStep (some relayAddr) backend s (.connectionEstablished peer true)
            = ({ listening_on_relay := true }, [Action.listenOn (withCircuit relayAddr)], .cont) := by
          simp [serverStep, hflag, hmatch]
        rw [hstep]
        rw [serverRun_flag_no_listen relayAddr backend evs _ rfl]
        simp [Action.isListenOn]
      · have hstep : serverStep (some relayAddr) backend s (.connectionEstablished peer true)
            = (s, [], .cont) := by
          simp [serverStep, hflag, hmatch]
        rw [hstep]
        simpa using ih s hflag hok.2
    | newListenAddr addr => simpa [serverStep] using ih s hflag hok.2
    | requestMessage peer request channel =>
      simpa [serverStep, Action.isListenOn] using ih s hflag hok.2
    | responseMessage peer response => simpa [serverStep] using ih s hflag hok.2
    | pingEvent => simpa [serverStep] using ih s hflag hok.2
    | relayEvent => simpa [serverStep] using ih s hflag hok.2
    | otherEvent => simpa [serverStep] using ih s hflag hok.2

/-! ## Lemmas: the client loop -/

theorem clientRun_cons (targetPeerId : PeerId) (prompt_sent : Bool) (ev : ClientEvent)
    (evs : List ClientEvent) :
    (clientStep targetPeerId prompt_sent ev).2.2 = .cont →
    clientRun targetPeerId prompt_sent (ev :: evs)
      = ((clientRun targetPeerId (clientStep targetPeerId prompt_sent ev).1 evs).1,
         (clientStep targetPeerId prompt_sent ev).2.1
           ++ (clientRun targetPeerId (clientStep targetPeerId prompt_sent ev).1 evs).2.1,
         (clientRun targetPeerId (clientStep targetPeerId prompt_sent ev).1 evs).2.2) := by
  intro hexit
  rcases hstep : clientStep targetPeerId prompt_sent ev with ⟨sent', acts, ex⟩
  rw [hstep] at hexit
  simp only at hexit
  subst hexit
  simp [clientRun, hstep]

theorem clientRun_send_count (targetPeerId : PeerId) :
    ∀ (evs : List ClientEvent) (prompt_sent : Bool),
      ((clientRun targetPeerId prompt_sent evs).2.1.countP Action.isSendRequest)
        ≤ if prompt_sent then 0 else 1 := by
  intro evs
  induction evs with
  | nil => intro prompt_sent; simp [clientRun]
  | cons ev evs ih =>
    intro prompt_sent
    cases ev with
    | connectionEstablished peer =>
      by_cases hcond : peer = targetPeerId ∧ prompt_sent = false
      · rw [clientRun_cons _ _ _ _ (by simp [clientStep, hcond])]
        simp only [clientStep, if_pos hcond, List.countP_append]
        have hrest := ih true
        simp only [if_pos rfl] at hrest
        rw [hcond.2]
        simpa [Action.isSendRequest] using hrest
      · rw [clientRun_cons _ _ _ _ (by simp [clientStep, hcond])]
        simp only [clientStep, if_neg hcond, List.countP_append]
        simpa using ih prompt_sent
    | responseMessage peer response => simp [clientRun, clientStep]
    | pingEvent =>
      rw [clientRun_cons _ _ _ _ (by rfl)]
      simpa [clientStep] using ih prompt_sent
    | outgoingConnectionError msg => simp [clientRun, clientStep]
    | otherEvent =>
      rw [clientRun_cons _ _ _ _ (by rfl)]
      simpa [clientStep] using ih prompt_sent

theorem clientRun_send_ok (targetPeerId : PeerId) :
    ∀ (evs : List ClientEvent) (prompt_sent : Bool),
      ((clientRun targetPeerId prompt_sent evs).2.1.all (sendRequestOk targetPeerId)) = true := by
  intro evs
  induction evs with
  | nil => intro prompt_sent; simp [clientRun]
  | cons ev evs ih =>
    intro prompt_sent
    cases ev with
    | connectionEstablished peer =>
      by_cases hcond : peer = targetPeerId ∧ prompt_sent = false
      · rw [clientRun_cons _ _ _ _ (by simp [clientStep, hcond])]
        simp only [clientStep, if_pos hcond, List.all_append]
        rw [Bool.and_eq_true]
        refine ⟨?_, ih true⟩
        simp [sendRequestOk, hcond.1]
      · rw [clientRun_cons _ _ _ _ (by simp [clientStep, hcond])]
        simp only [clientStep, if_neg hcond, List.all_append]
        simpa using ih prompt_sent
    | responseMessage peer response => simp [clientRun, clientStep]
    | pingEvent =>
      rw [clientRun_cons _ _ _ _ (by rfl)]
      simpa [clientStep] using ih prompt_sent
    | outgoingConnectionError msg => simp [clientRun, clientStep]
    | otherEvent =>
      rw [clientRun_cons _ _ _ _ (by rfl)]
      simpa [clientStep] using ih prompt_sent

/-! ## Claims -/

/-- C1: for every request event the server loop accepts, `send_response` is
invoked exactly once, on that request's response channel: over any finite
run of the server loop, the channels of the emitted `sendResponse` actions
are exactly the channels of the received request events, in order. -/
theorem server_request_exactly_one_response (relayAddrOpt : Option Multiaddr)
    (backend : String → Except String String) (s : ServerState) (evs : List ServerEvent) :
    ((serverRun relayAddrOpt backend s evs).2.1).filterMap Action.sendResponseChannel?
      = evs.filterMap ServerEvent.requestChannel? := by
  induction evs generalizing s with
  | nil => rfl
  | cons ev evs ih =>
    rw [serverRun_cons]
    simp only [List.filterMap_append, serverStep_responses, ih, List.filterMap_cons]
    cases hch : ServerEvent.requestChannel? ev <;> simp

/-- C2 counterexample: on an HTTP 500 from the backend, the server's reply
is `Error calling Ollama: Ollama returned error: 500 Internal Server Error`
(the status is wrapped in `call_ollama`'s own error text first), not the
claimed exact string `Error calling Ollama: 500 Internal Server Error`. -/
theorem server_backend_error_exact_string_counterexample :
    (serverStep none (fun _ => call_ollama (.response 500 "Internal Server Error" (.ok .null)))
        ⟨false⟩ (.requestMessage "client" ⟨"hi"⟩ 7)).2.1
      = [.sendResponse 7
          ⟨"Error calling Ollama: Ollama returned error: 500 Internal Server Error"⟩]
    ∧ ("Error calling Ollama: Ollama returned error: 500 Internal Server Error"
        ≠ "Error calling Ollama: 500 Internal Server Error") := by
  constructor
  · decide
  · decide

/-- C2 amended: when the backend HTTP call returns a non-2xx status, the
server still sends exactly one `PromptResponse`, whose text is
`Error calling Ollama: Ollama returned error: <status>` — the status
wrapped first by `call_ollama`'s error and then by the loop's
`Error calling Ollama: ` prefix — rather than a protocol-level failure. -/
theorem server_backend_error_reply (relayAddrOpt : Option Multiaddr) (status : Nat)
    (reason prompt : String) (body : Except String Json) (peer : PeerId) (channel : Nat)
    (s : ServerState) (h : ¬ (200 ≤ status ∧ status ≤ 299)) :
    (serverStep relayAddrOpt (fun _ => call_ollama (.response status reason body)) s
        (.requestMessage peer ⟨prompt⟩ channel)).2.1
      = [.sendResponse channel
          ⟨"Error calling Ollama: " ++ ("Ollama returned error: " ++ statusDisplay status reason)⟩] := by
  simp [serverStep, call_ollama, h]

/-- Witness for C2 amended at status 500. -/
theorem server_backend_error_reply_witness :
    (serverStep none (fun _ => call_ollama (.response 500 "Internal Server Error" (.ok .null)))
        ⟨false⟩ (.requestMessage "client" ⟨"hi"⟩ 7)).2.1
      = [.sendResponse 7
          ⟨"Error calling Ollama: "
            ++ ("Ollama returned error: " ++ statusDisplay 500 "Internal Server Error")⟩] :=
  server_backend_error_reply none 500 "Internal Server Error" "hi" (.ok .null) "client" 7
    ⟨false⟩ (by decide)

/-- C3: starting from `prompt_sent = false`, over any finite run of the
client loop at most one `send_request` action is ever emitted, and every
emitted `send_request` is addressed to the configured target peer (with
the fixed prompt). -/
theorem client_single_send (targetPeerId : PeerId) (evs : List ClientEvent) :
    ((clientRun targetPeerId false evs).2.1.countP Action.isSendRequest ≤ 1)
    ∧ ((clientRun targetPeerId false evs).2.1.all (sendRequestOk targetPeerId) = true) := by
  constructor
  · simpa using clientRun_send_count targetPeerId evs false
  · exact clientRun_send_ok targetPeerId evs false

/-- C4 counterexample: the client loop returns `Ok` on a `Response` message
from ANY peer — here a peer different from the target — so an event other
than "the expected PromptResponse from the target peer" also exits the
loop. -/
theorem client_exit_foreign_response_counterexample :
    clientStep "TARGET" false (.responseMessage "OTHER" ⟨"hi"⟩) = (false, [], .exitOk)
    ∧ ("OTHER" : PeerId) ≠ "TARGET" := by
  constructor
  · rfl
  · decide

/-- C4 amended: the client loop exits successfully on the first
`PromptResponse` message from any peer (the sender is not compared against
the target), exits with failure exactly on an outgoing-connection error,
and no other event makes it exit. -/
theorem client_exit_characterization (targetPeerId : PeerId) (prompt_sent : Bool)
    (ev : ClientEvent) :
    (clientStep targetPeerId prompt_sent ev).2.2
      = (match ev with
         | .responseMessage _ _ => .exitOk
         | .outgoingConnectionError msg => .exitErr msg
         | _ => .cont) := by
  cases ev with
  | connectionEstablished peer =>
    by_cases h : peer = targetPeerId ∧ prompt_sent = false <;> simp [clientStep, h]
  | responseMessage peer response => rfl
  | pingEvent => rfl
  | outgoingConnectionError msg => rfl
  | otherEvent => rfl

/-- C5: with a configured relay address the node dials the relay at startup
and never listens directly: every listen it ever issues is the circuit
listen (the relay address with the circuit marker appended), issued only
while handling a connection to the peer named by the relay address's
`/p2p` component.  Without a relay address it listens directly on the
ephemeral local address `/ip4/0.0.0.0/tcp/0` at startup, and the loop
never dials or listens. -/
theorem server_relay_or_direct_listen (relayAddr : Multiaddr)
    (backend : String → Except String String) (s : ServerState) (ev : ServerEvent) :
    (serverStartup (some relayAddr) = [.dial relayAddr])
    ∧ (serverStartup none = [.listenOn [.ip4 0 0 0 0, .tcp 0]])
    ∧ (parse "/ip4/0.0.0.0/tcp/0" = some [.ip4 0 0 0 0, .tcp 0])
    ∧ ((serverStep (some relayAddr) backend s ev).2.1.all (relayActionOk relayAddr ev) = true)
    ∧ ((serverStep none backend s ev).2.1.all (fun a => !a.isDialOrListen) = true) := by
  refine ⟨rfl, rfl, by decide, ?_, ?_⟩
  · cases ev with
    | connectionEstablished peer listenOk =>
      by_cases hflag : s.listening_on_relay = true
      · simp [serverStep, hflag]
      · rw [Bool.not_eq_true] at hflag
        by_cases hmatch : firstP2p relayAddr = some peer
        · cases listenOk <;> simp [serverStep, hflag, hmatch, relayActionOk]
        · simp [serverStep, hflag, hmatch]
    | newListenAddr addr => simp [serverStep]
    | requestMessage peer request channel => simp [serverStep, relayActionOk]
    | responseMessage peer response => simp [serverStep]
    | pingEvent => simp [serverStep]
    | relayEvent => simp [serverStep]
    | otherEvent => simp [serverStep]
  · cases ev with
    | connectionEstablished peer listenOk => simp [serverStep]
    | newListenAddr addr => simp [serverStep]
    | requestMessage peer request channel => simp [serverStep, Action.isDialOrListen]
    | responseMessage peer response => simp [serverStep]
    | pingEvent => simp [serverStep]
    | relayEvent => simp [serverStep]
    | otherEvent => simp [serverStep]

/-- C6: on a target string that does not parse, or parses to an address
with no `/p2p` component, the client startup fails with an address error
having performed no network action (no dial, no listen). -/
theorem client_address_error_before_io (arg : String)
    (h : parse arg = none ∨ ∃ addr, parse arg = some addr ∧ lastP2p addr = none) :
    (clientInit arg).1 = [] ∧ ∃ e, (clientInit arg).2 = .error e := by
  rcases h with h | ⟨addr, haddr, hpid⟩
  · rw [clientInit, h]
    exact ⟨rfl, _, rfl⟩
  · simp only [clientInit, haddr, hpid]
    exact ⟨trivial, _, rfl⟩

/-- Witness for C6 at a well-formed address lacking a peer id. -/
theorem client_address_error_before_io_witness :
    (clientInit "/ip4/1.2.3.4/tcp/5").1 = []
    ∧ ∃ e, (clientInit "/ip4/1.2.3.4/tcp/5").2 = .error e :=
  client_address_error_before_io _ (Or.inr ⟨[.ip4 1 2 3 4, .tcp 5], by decide, by decide⟩)

/-- C7: parsing the serialized string form of any valid multiaddress of the
defined grammar yields the original value. -/
theorem multiaddr_parse_serialize_roundtrip (addr : Multiaddr) (h : validAddr addr = true) :
    parse (serialize addr) = some addr := by
  have hfree : ∀ x ∈ ([] : List Char) :: serializeTokens addr, '/' ∉ x := by
    intro x hx
    rcases List.mem_cons.mp hx with rfl | hx
    · simp
    · exact slash_not_mem_serializeTokens h x hx
  have hsplit := splitSep_joinSep (([] : List Char) :: serializeTokens addr) (by simp) hfree
  rw [serialize, parse]
  rw [show (⟨joinSep '/' (([] : List Char) :: serializeTokens addr)⟩ : String).data
        = joinSep '/' (([] : List Char) :: serializeTokens addr) from rfl]
  rw [hsplit]
  show (if ([] : List Char) = [] then parseTokens (serializeTokens addr) else none) = some addr
  rw [if_pos rfl]
  exact parseTokens_serializeTokens h

/-- Witness for C7 at a concrete relayed address. -/
theorem multiaddr_parse_serialize_roundtrip_witness :
    parse (serialize [.ip4 127 0 0 1, .tcp 4001, .p2p "QmRelay", .p2pCircuit])
      = some [.ip4 127 0 0 1, .tcp 4001, .p2p "QmRelay", .p2pCircuit] :=
  multiaddr_parse_serialize_roundtrip _ (by decide)

/-- C8: on a 2xx status whose JSON body has no string `response` field,
`call_ollama` returns `Ok "No response"` and the server replies with
`PromptResponse` text `No response` rather than treating it as an error. -/
theorem backend_missing_response_field (relayAddrOpt : Option Multiaddr) (status : Nat)
    (reason prompt : String) (j : Json) (peer : PeerId) (channel : Nat) (s : ServerState)
    (h2xx : 200 ≤ status ∧ status ≤ 299) (hfield : (j.index "response").asStr = none) :
    call_ollama (.response status reason (.ok j)) = .ok "No response"
    ∧ (serverStep relayAddrOpt (fun _ => call_ollama (.response status reason (.ok j))) s
        (.requestMessage peer ⟨prompt⟩ channel)).2.1
      = [.sendResponse channel ⟨"No response"⟩] := by
  have hcall : call_ollama (.response status reason (.ok j)) = .ok "No response" := by
    simp [call_ollama, h2xx, hfield]
  exact ⟨hcall, by simp [serverStep, hcall]⟩

/-- Witness for C8 at status 200 with a body lacking the field. -/
theorem backend_missing_response_field_witness :
    call_ollama (.response 200 "OK" (.ok (.obj [("done", .bool true)]))) = .ok "No response"
    ∧ (serverStep none
        (fun _ => call_ollama (.response 200 "OK" (.ok (.obj [("done", .bool true)]))))
        ⟨false⟩ (.requestMessage "client" ⟨"hi"⟩ 3)).2.1
      = [.sendResponse 3 ⟨"No response"⟩] :=
  backend_missing_response_field none 200 "OK" "hi" (.obj [("done", .bool true)]) "client" 3
    ⟨false⟩ (by decide) (by decide)

/-- C9 counterexample: when the first circuit-listen attempt fails, a later
connection to the relay peer triggers a second listen attempt in the same
process run — two `listen_on` calls, refuting "attempts the circuit listen
at most once per process run". -/
theorem relay_listen_single_attempt_counterexample :
    ((serverRun (some [.ip4 127 0 0 1, .tcp 4001, .p2p "R"]) (fun _ => .ok "")
        ⟨false⟩ [.connectionEstablished "R" false, .connectionEstablished "R" true]).2.1.countP
      Action.isListenOn) = 2 := by
  decide

/-- C9 amended: the `listening_on_relay` flag is checked on every event
(once it is set, no further listen is ever attempted), it is set exactly
by a successful circuit listen on a connection to the peer named by the
relay address's first `/p2p` component, and when listen attempts succeed
the circuit listen is attempted at most once per run; a FAILED attempt may
be retried on a later matching connection. -/
theorem relay_listen_flag_discipline (relayAddr : Multiaddr)
    (backend : String → Except String String) (s : ServerState) (ev : ServerEvent)
    (evs : List ServerEvent) :
    (s.listening_on_relay = true →
      ((serverRun (some relayAddr) backend s evs).2.1.countP Action.isListenOn) = 0)
    ∧ (((serverStep (some relayAddr) backend s ev).1.listening_on_relay = true)
        ↔ (s.listening_on_relay = true
            ∨ ∃ p, ev = .connectionEstablished p true ∧ firstP2p relayAddr = some p))
    ∧ (s.listening_on_relay = false → evs.all ServerEvent.listenOkTrue = true →
        ((serverRun (some relayAddr) backend s evs).2.1.countP Action.isListenOn) ≤ 1) := by
  refine ⟨serverRun_flag_no_listen relayAddr backend evs s, ?_,
    serverRun_listen_count relayAddr backend evs s⟩
  cases ev with
  | connectionEstablished peer listenOk =>
    by_cases hflag : s.listening_on_relay = true
    · simp [serverStep, hflag]
    · rw [Bool.not_eq_true] at hflag
      by_cases hmatch : firstP2p relayAddr = some peer
      · cases listenOk <;> simp [serverStep, hflag, hmatch]
      · cases listenOk <;> simp [serverStep, hflag, hmatch]
  | newListenAddr addr => simp [serverStep]
  | requestMessage peer request channel => simp [serverStep]
  | responseMessage peer response => simp [serverStep]
  | pingEvent => simp [serverStep]
  | relayEvent => simp [serverStep]
  | otherEvent => simp [serverStep]

/-- Witness for C9 amended: with the flag already set no listen is emitted,
and from a cleared flag with all listens succeeding at most one listen is
emitted. -/
theorem relay_listen_flag_discipline_witness :
    ((serverRun (some [.p2p "R"]) (fun _ => .ok "") ⟨true⟩
        [.connectionEstablished "R" true]).2.1.countP Action.isListenOn) = 0
    ∧ ((serverRun (some [.p2p "R"]) (fun _ => .ok "") ⟨false⟩
        [.connectionEstablished "R" true, .connectionEstablished "R" true]).2.1.countP
          Action.isListenOn) ≤ 1 :=
  ⟨(relay_listen_flag_discipline [.p2p "R"] (fun _ => .ok "") ⟨true⟩ .pingEvent
      [.connectionEstablished "R" true]).1 rfl,
   (relay_listen_flag_discipline [.p2p "R"] (fun _ => .ok "") ⟨false⟩ .pingEvent
      [.connectionEstablished "R" true, .connectionEstablished "R" true]).2.2 rfl (by decide)⟩

/-- C10: the server loop never terminates: no arm exits, so a finite run
over any event sequence — responses, ping failures, relay events included —
ends with the loop still running (outcome `none`), never a process exit. -/
theorem server_loop_never_exits (relayAddrOpt : Option Multiaddr)
    (backend : String → Except String String) (s : ServerState) (evs : List ServerEvent) :
    (serverRun relayAddrOpt backend s evs).2.2 = none := by
  induction evs generalizing s with
  | nil => rfl
  | cons ev evs ih =>
    rw [serverRun_cons]
    exact ih _

end MeshAI
